import Mathlib

/-!
Verification of the nested-column rewriting utilities of the review-cleaning
pipeline (`preprocessing/emr/cleaning_spark.py` and its pandas near-duplicate
`deployment/flask/train.py`).

The Spark data model is shallowly embedded: a `Value` is a scalar or a struct
(an ordered association list of named fields), a `Row` is an ordered
association list of column name to `Value`, and a `DataFrame` is a list of
rows.  Column expressions (`withColumn`, `f.struct`, `drop`) are embedded as
row-wise operations on these association lists, matching Spark's
replace-in-place-or-append semantics for `withColumn`.  Fallible operations
(the `ValueError` guards and row-level transforms that would raise at
runtime) are embedded with `Except`/`Option`.
-/

/-- A Spark SQL value: null, string, integer, or a struct of named fields
(order of fields is significant, as it is in a Spark struct type). -/
inductive Value where
  | null : Value
  | str (s : String) : Value
  | int (n : Int) : Value
  | struct (fields : List (String × Value)) : Value

/-- A row of a table: ordered association list of column name to value. -/
abbrev Row := List (String × Value)

/-- A table: a list of rows (all sharing one schema in well-formed tables). -/
abbrev DataFrame := List Row

/-- Field lookup in an ordered association list; `null` when the name is
absent (Spark resolves a missing nested field to null). -/
def getField : List (String × Value) → String → Value
  | [], _ => Value.null
  | q :: fields, name => if q.1 == name then q.2 else getField fields name

/-- Replace the value of the first field with the given name, keeping its
position, or append the field at the end when the name is absent.  This is
both Spark's `withColumn` semantics at row level and the Python dict
assignment semantics used by `adjustRow`. -/
def setCol : List (String × Value) → String → Value → List (String × Value)
  | [], n, v => [(n, v)]
  | q :: r, n, v => if q.1 == n then (q.1, v) :: r else q :: setCol r n v

/-- Remove every field with the given name (Spark `drop` / Python dict `pop`
at row level). -/
def dropCol (row : List (String × Value)) (n : String) : List (String × Value) :=
  row.filter (fun q => q.1 != n)

/-- Value of the nested reference `parent.child` in a row. -/
def getNested (row : Row) (p c : String) : Value :=
  match getField row p with
  | Value.struct fs => getField fs c
  | _ => Value.null

/-- A column reference as it appears in the arguments of `f.struct`:
a top-level column name, a nested `parent.child` reference, or the star
expansion `parent.*`. -/
inductive ColRef where
  | top (name : String) : ColRef
  | nested (p c : String) : ColRef
  | star (p : String) : ColRef

/-- Fields contributed by one column reference inside `f.struct`, evaluated
against a row. -/
def colRefFields (row : Row) : ColRef → List (String × Value)
  | ColRef.top n => [(n, getField row n)]
  | ColRef.nested p c => [(c, getNested row p c)]
  | ColRef.star p =>
      match getField row p with
      | Value.struct fs => fs
      | _ => []

/-- Evaluation of `f.struct(ref1, ref2, ...)` against a row. -/
def structExpr (refs : List ColRef) (row : Row) : Value :=
  Value.struct (refs.foldr (fun r acc => colRefFields row r ++ acc) [])

/-- Child-field names of a struct column, as obtained by
`df.select(parent.*).columns`; derived from the leading row, which carries
the schema in this embedding. -/
def structChildren (df : DataFrame) (p : String) : List String :=
  match df with
  | [] => []
  | row :: _ =>
      match getField row p with
      | Value.struct fs => fs.map Prod.fst
      | _ => []

/-- ASCII lower-casing of a name, embedding the Python `str.lower()` calls
used in the name-collision check. -/
def lowerName (s : String) : String :=
  String.mk (s.data.map Char.toLower)

/-- Resolution of the new child name in `manipulateNestedColumn`: default to
the old child name when no new name is given, then append an underscore when
the result case-insensitively collides with the parent column name.  The
Boolean records whether the collision warning was emitted. -/
def resolvedChildName (p c : String) (newOpt : Option String) : String × Bool :=
  let n0 := newOpt.getD c
  if lowerName n0 == lowerName p then (n0 ++ "_", true) else (n0, false)

/-- Spark `withColumn`: add or replace a column, computing its value from
each row via the given column expression. -/
def withColumn (df : DataFrame) (name : String) (e : Row → Value) : DataFrame :=
  df.map (fun row => setCol row name (e row))

/-- Spark `drop`. -/
def dropColumn (df : DataFrame) (name : String) : DataFrame :=
  df.map (fun row => dropCol row name)

/-- Embedding of `manipulateNestedColumn` from `cleaning_spark.py`: replace
(or, with `addAsNewChild`, augment) one child of a struct column with a
mapped value, by adding a temporary top-level column, rebuilding the parent
struct from it, and dropping the temporary column. -/
def manipulateNestedColumn (df : DataFrame) (parentColName childColName : String)
    (mapping : Option (Value → Value)) (newChildColName : Option String)
    (addAsNewChild : Bool) : Except String DataFrame :=
  let mappingF := mapping.getD id
  if newChildColName.isNone && addAsNewChild then
    Except.error ("Cannot add the column " ++ childColName ++ " twice to " ++ parentColName)
  else
    let colToManipulate : Row → Value := fun row => getNested row parentColName childColName
    let n := (resolvedChildName parentColName childColName newChildColName).1
    let childRefs : List ColRef :=
      if addAsNewChild then [ColRef.star parentColName]
      else ((structChildren df parentColName).filter (fun ch => ch != childColName)).map
        (fun ch => ColRef.nested parentColName ch)
    Except.ok (dropColumn
      (withColumn (withColumn df n (fun row => mappingF (colToManipulate row)))
        parentColName (structExpr (ColRef.top n :: childRefs)))
      n)

/-- Digit accumulation for the integer cast, over the characters of a
string. -/
def digitsToNatAux : Nat → List Char → Option Nat
  | acc, [] => some acc
  | acc, ch :: r =>
      if '0' ≤ ch ∧ ch ≤ '9' then digitsToNatAux (acc * 10 + (ch.toNat - '0'.toNat)) r
      else none

/-- Parse an optionally negated decimal integer, embedding Spark's cast of a
string column to `int` (null on malformed input). -/
def parseIntChars : List Char → Option Int
  | [] => none
  | '-' :: r =>
      match r with
      | [] => none
      | _ => (digitsToNatAux 0 r).map (fun k => -(Int.ofNat k))
  | l => (digitsToNatAux 0 l).map Int.ofNat

/-- Embedding of the `castToInt` mapping from the cleaning script:
`regexp_replace(col, " ", "").cast("int")` — delete every space character,
then cast to integer, yielding null when the cast fails or the input is not
a string. -/
def castToInt (v : Value) : Value :=
  match v with
  | Value.str s =>
      match parseIntChars (s.data.filter (fun ch => ch != ' ')) with
      | some k => Value.int k
      | none => Value.null
  | _ => Value.null

/-- Per-row effect of `manipulateNestedColumn`: the three chained column
operations fused into one row transformation (`children` is the child-name
list the function reads from the table's schema). -/
def mncRow (children : List String) (p c : String) (mapping : Option (Value → Value))
    (newOpt : Option String) (add : Bool) (row : Row) : Row :=
  let mappingF := mapping.getD id
  let n := (resolvedChildName p c newOpt).1
  let childRefs : List ColRef :=
    if add then [ColRef.star p]
    else ((children.filter (fun ch => ch != c)).map (fun ch => ColRef.nested p ch))
  let row1 := setCol row n (mappingF (getNested row p c))
  dropCol (setCol row1 p (structExpr (ColRef.top n :: childRefs) row1)) n

lemma manipulateNestedColumn_eq_map (df : DataFrame) (p c : String)
    (mapping : Option (Value → Value)) (newOpt : Option String) (add : Bool)
    (h : (newOpt.isNone && add) = false) :
    manipulateNestedColumn df p c mapping newOpt add =
      Except.ok (df.map (mncRow (structChildren df p) p c mapping newOpt add)) := by
  simp only [manipulateNestedColumn, h, Bool.false_eq_true, if_false, withColumn,
    dropColumn, List.map_map]
  rfl

lemma getField_setCol_self (row : List (String × Value)) (n : String) (v : Value) :
    getField (setCol row n v) n = v := by
  induction row with
  | nil => simp [setCol, getField]
  | cons q r ih =>
    by_cases h : q.1 = n
    · simp [setCol, getField, beq_iff_eq, h]
    · simp [setCol, getField, beq_iff_eq, h, ih]

lemma getField_setCol_ne (row : List (String × Value)) (n : String) (v : Value)
    (m : String) (h : m ≠ n) : getField (setCol row n v) m = getField row m := by
  induction row with
  | nil => simp [setCol, getField, beq_iff_eq, Ne.symm h]
  | cons q r ih =>
    by_cases hq : q.1 = n
    · simp [setCol, getField, beq_iff_eq, hq, Ne.symm h]
    · simp [setCol, getField, beq_iff_eq, hq, ih]

lemma getField_dropCol_ne (row : List (String × Value)) (n m : String) (h : m ≠ n) :
    getField (dropCol row n) m = getField row m := by
  induction row with
  | nil => rfl
  | cons q r ih =>
    simp only [dropCol] at ih ⊢
    by_cases hq : q.1 = n
    · simp [List.filter_cons, getField, bne_iff_ne, beq_iff_eq, hq, Ne.symm h, ih]
    · simp [List.filter_cons, getField, bne_iff_ne, beq_iff_eq, hq, ih]

lemma mem_keys_of_getField_ne_null (row : List (String × Value)) (p : String)
    (h : getField row p ≠ Value.null) : p ∈ row.map Prod.fst := by
  induction row with
  | nil => simp [getField] at h
  | cons q r ih =>
    by_cases hq : q.1 = p
    · simp [hq]
    · simp only [getField, beq_iff_eq, hq, if_false] at h
      simp only [List.map_cons, List.mem_cons]
      exact Or.inr (ih h)

lemma setCol_of_not_mem (row : List (String × Value)) (n : String) (v : Value)
    (h : n ∉ row.map Prod.fst) : setCol row n v = row ++ [(n, v)] := by
  induction row with
  | nil => rfl
  | cons q r ih =>
    simp only [List.map_cons, List.mem_cons, not_or] at h
    have h1 : q.1 ≠ n := fun hh => h.1 hh.symm
    simp [setCol, beq_iff_eq, h1, ih h.2]

lemma setCol_append_left (row l : List (String × Value)) (p : String) (v : Value)
    (h : p ∈ row.map Prod.fst) : setCol (row ++ l) p v = setCol row p v ++ l := by
  induction row with
  | nil => simp at h
  | cons q r ih =>
    by_cases hq : q.1 = p
    · simp [setCol, beq_iff_eq, hq]
    · simp only [List.map_cons, List.mem_cons] at h
      have h2 : p ∈ r.map Prod.fst := h.resolve_left (fun hh => hq hh.symm)
      simp [setCol, beq_iff_eq, hq, ih h2]

lemma map_fst_setCol (row : List (String × Value)) (p : String) (v : Value)
    (h : p ∈ row.map Prod.fst) : (setCol row p v).map Prod.fst = row.map Prod.fst := by
  induction row with
  | nil => simp at h
  | cons q r ih =>
    by_cases hq : q.1 = p
    · simp [setCol, beq_iff_eq, hq]
    · simp only [List.map_cons, List.mem_cons] at h
      have h2 : p ∈ r.map Prod.fst := h.resolve_left (fun hh => hq hh.symm)
      simp [setCol, beq_iff_eq, hq, ih h2]

lemma dropCol_of_not_mem (row : List (String × Value)) (n : String)
    (h : n ∉ row.map Prod.fst) : dropCol row n = row := by
  rw [dropCol, List.filter_eq_self]
  intro a ha
  have hne : a.1 ≠ n := fun hh => h (hh ▸ List.mem_map_of_mem Prod.fst ha)
  simpa [bne_iff_ne] using hne

lemma dropCol_append (l1 l2 : List (String × Value)) (n : String) :
    dropCol (l1 ++ l2) n = dropCol l1 n ++ dropCol l2 n := by
  simp [dropCol, List.filter_append]

lemma lowerName_length (s : String) : (lowerName s).length = s.length := by
  show (s.data.map Char.toLower).length = s.data.length
  simp

lemma resolvedChildName_ne_parent (p c : String) (newOpt : Option String) :
    (resolvedChildName p c newOpt).1 ≠ p := by
  simp only [resolvedChildName]
  by_cases h : lowerName (newOpt.getD c) = lowerName p
  · simp only [h, beq_self_eq_true, if_true]
    intro heq
    have hlen : (lowerName (newOpt.getD c)).length = (lowerName p).length := by rw [h]
    rw [lowerName_length, lowerName_length] at hlen
    have hone : ("_" : String).length = 1 := rfl
    have : p.length = (newOpt.getD c).length + 1 := by
      rw [← heq, String.length_append, hone]
    omega
  · simp only [beq_iff_eq, h, if_false]
    intro heq
    exact h (by rw [heq])

lemma foldr_colRef_nested (p : String) (l : List String) (row : Row) :
    (l.map (fun ch => ColRef.nested p ch)).foldr (fun r acc => colRefFields row r ++ acc) [] =
      l.map (fun ch => (ch, getNested row p ch)) := by
  induction l with
  | nil => rfl
  | cons a l ih =>
    simp only [List.map_cons, List.foldr_cons, ih]
    rfl

lemma filter_keys_getField (fs : List (String × Value)) (c : String)
    (h : (fs.map Prod.fst).Nodup) :
    ((fs.map Prod.fst).filter (fun k => k != c)).map (fun k => (k, getField fs k)) =
      fs.filter (fun q => q.1 != c) := by
  induction fs with
  | nil => rfl
  | cons q r ih =>
    simp only [List.map_cons, List.nodup_cons] at h
    obtain ⟨hq, hr⟩ := h
    have htail : ((r.map Prod.fst).filter (fun k => k != c)).map
        (fun k => (k, getField (q :: r) k)) = r.filter (fun x => x.1 != c) := by
      rw [← ih hr]
      apply List.map_congr_left
      intro k hk
      have hkr : k ∈ r.map Prod.fst := List.mem_of_mem_filter hk
      have hne : (q.1 == k) = false := by
        simp only [beq_eq_false_iff_ne, ne_eq]
        exact fun hh => hq (hh ▸ hkr)
      simp [getField, hne]
    by_cases hc : q.1 = c
    · have hf : (q.1 != c) = false := by simp [bne_iff_ne, hc]
      simp only [List.map_cons, List.filter_cons, hf, Bool.false_eq_true, if_false]
      exact htail
    · have hf : (q.1 != c) = true := by simp [bne_iff_ne, hc]
      have hhead : getField (q :: r) q.1 = q.2 := by simp [getField]
      simp only [List.map_cons, List.filter_cons, hf, if_true, List.map_cons, hhead, htail]

lemma mncRow_structVal (children : List String) (p c : String)
    (mapping : Option (Value → Value)) (newOpt : Option String) (add : Bool)
    (row : Row) (fs : List (String × Value))
    (hp : getField row p = Value.struct fs)
    (hch : children = fs.map Prod.fst)
    (hnd : (fs.map Prod.fst).Nodup) :
    structExpr
        (ColRef.top (resolvedChildName p c newOpt).1 ::
          (if add then [ColRef.star p]
           else ((children.filter (fun ch => ch != c)).map (fun ch => ColRef.nested p ch))))
        (setCol row (resolvedChildName p c newOpt).1
          ((mapping.getD id) (getNested row p c))) =
      Value.struct (((resolvedChildName p c newOpt).1,
          (mapping.getD id) (getField fs c)) ::
        (if add then fs else fs.filter (fun q => q.1 != c))) := by
  have hnp : (resolvedChildName p c newOpt).1 ≠ p := resolvedChildName_ne_parent p c newOpt
  have hv : getNested row p c = getField fs c := by simp [getNested, hp]
  rw [hv, hch]
  have h2 : getField (setCol row (resolvedChildName p c newOpt).1
      ((mapping.getD id) (getField fs c))) p = Value.struct fs := by
    rw [getField_setCol_ne _ _ _ _ (Ne.symm hnp), hp]
  cases add with
  | true =>
    simp only [if_true, structExpr, List.foldr_cons, List.foldr_nil, colRefFields]
    rw [getField_setCol_self, h2]
    simp
  | false =>
    simp only [if_false, Bool.false_eq_true, structExpr, List.foldr_cons]
    rw [foldr_colRef_nested]
    simp only [colRefFields]
    rw [getField_setCol_self]
    have hmap : ((fs.map Prod.fst).filter (fun k => k != c)).map
        (fun ch => (ch, getNested (setCol row (resolvedChildName p c newOpt).1
          ((mapping.getD id) (getField fs c))) p ch)) =
        ((fs.map Prod.fst).filter (fun k => k != c)).map (fun k => (k, getField fs k)) := by
      apply List.map_congr_left
      intro k _
      simp [getNested, h2]
    rw [hmap, filter_keys_getField fs c hnd]
    simp

/-- Argument shape of the `mappings` parameter of `manipulateNestedColumns`:
either a single (possibly absent) mapping, broadcast to all children, or a
list of per-child mappings. -/
inductive MappingsArg where
  | one (f : Option (Value → Value)) : MappingsArg
  | many (fs : List (Option (Value → Value))) : MappingsArg

/-- Embedding of `manipulateNestedColumns`: replicate a single mapping over
all children, assert that the three lists agree in length, then fold
`manipulateNestedColumn` over the zipped lists.  The assertion fires before
any rewrite is applied. -/
def manipulateNestedColumns (df : DataFrame) (parentColName : String)
    (childColNames : List String) (mappings : MappingsArg)
    (newChildColNames : Option (List String)) (addAsNewChildren : Bool) :
    Except String DataFrame :=
  let newNames := newChildColNames.getD childColNames
  let ms := match mappings with
    | MappingsArg.one f => List.replicate childColNames.length f
    | MappingsArg.many fs => fs
  if newNames.length == childColNames.length && childColNames.length == ms.length then
    (childColNames.zip (newNames.zip ms)).foldlM
      (fun acc q => manipulateNestedColumn acc parentColName q.1 q.2.2 (some q.2.1)
        addAsNewChildren)
      df
  else
    Except.error "Lengths of newChildColNames, childColNames and mappings have to match"

/-- Embedding of the row-level transform `adjustRow` inside
`manipulateNestedThroughRdd`: pop the parent value from the row dict, pass a
null parent through unchanged, otherwise map the child value, drop the old
child unless adding as a new one, write the new child at the end of the
parent dict, and re-append the parent at the end of the row dict.  `none`
models the Python exceptions that a missing parent key, a non-struct parent,
a missing child key, or an absent new child name (dict key `None`) would
raise at runtime. -/
def adjustRow (p c : String) (mapping : Value → Value) (newOpt : Option String)
    (add : Bool) (row : Row) : Option Row :=
  match row.find? (fun q => q.1 == p) with
  | none => none
  | some (_, Value.null) => some row
  | some (_, Value.struct parentFields) =>
      match newOpt with
      | none => none
      | some n =>
          if parentFields.any (fun q => q.1 == c) then
            let newChildValue := mapping (getField parentFields c)
            let fs1 := if add then parentFields else dropCol parentFields c
            some (setCol (dropCol row p) p (Value.struct (setCol fs1 n newChildValue)))
          else none
  | some _ => none

/-- Map a fallible row transform over all rows, failing when any row fails
(models a distributed job aborting on a task exception). -/
def mapRows (f : Row → Option Row) : List Row → Option (List Row)
  | [] => some []
  | r :: rs =>
      match f r, mapRows f rs with
      | some r2, some rs2 => some (r2 :: rs2)
      | _, _ => none

/-- Skip characters up to and including the first `>`; `none` when there is
no `>` left.  This is the lazy `.*?>` part of the schema-patch pattern. -/
def dropUntilGT : List Char → Option (List Char)
  | [] => none
  | ch :: r => if ch = '>' then some r else dropUntilGT r

/-- Fuel-indexed scanner for the typed schema patch: replace every
occurrence of `pat` followed lazily by anything up to the first `>` with
`repl`, scanning left to right (the fuel is only a termination device; it is
instantiated with the string length). -/
def subLazyGTAux (pat repl : List Char) : Nat → List Char → List Char
  | 0, s => s
  | _ + 1, [] => []
  | fuel + 1, ch :: rest =>
      if pat.isPrefixOf (ch :: rest) then
        match dropUntilGT ((ch :: rest).drop pat.length) with
        | some rest2 => repl ++ subLazyGTAux pat repl fuel rest2
        | none => ch :: rest
      else ch :: subLazyGTAux pat repl fuel rest

/-- Replacement of every `pat`-anchored, lazily-delimited type declaration
by `repl`, embedding `re.sub(pat + ":.*?>", repl, s)` for a literal `pat`. -/
def subLazyGT (pat repl s : List Char) : List Char :=
  subLazyGTAux pat repl s.length s

/-- Embedding of the typed schema patch of `manipulateNestedThroughRdd`:
`re.sub(childSchemaString + ":.*?>", newChildSchemaString + ":" + ty + ">", s)`
with the pattern treated as a literal (the column names of this pipeline
contain no regex metacharacters). -/
def patchSchemaTyped (childSchemaString newChildSchemaString ty s : String) : String :=
  String.mk (subLazyGT (childSchemaString ++ ":").data
    (newChildSchemaString ++ ":" ++ ty ++ ">").data s.data)

/-- A table as seen by the RDD path: its rows plus the textual schema
description `df.schema.simpleString()`. -/
structure STable where
  rows : List Row
  schemaString : String

/-- Embedding of `manipulateNestedThroughRdd`: guard against an absent new
child name when adding, patch the schema string textually (anchored on the
`parent:struct<child` prefix), and rebuild the table from the row-mapped
RDD with the patched schema.  An absent new child name interpolates as the
literal `None` in the schema pattern, exactly as the Python f-string does. -/
def manipulateNestedThroughRdd (t : STable) (p c : String) (mapping : Value → Value)
    (newOpt : Option String) (add : Bool) (newChildType : Option String) :
    Except String STable :=
  if newOpt.isNone && add then
    Except.error ("Cannot add the column " ++ c ++ " twice to " ++ p)
  else
    let childSchemaString := p ++ ":struct<" ++ c
    let newChildSchemaString :=
      p ++ ":struct<" ++ (match newOpt with | some s => s | none => "None")
    let newSchemaString := match newChildType with
      | some ty => patchSchemaTyped childSchemaString newChildSchemaString ty t.schemaString
      | none => String.replace t.schemaString childSchemaString newChildSchemaString
    match mapRows (adjustRow p c mapping newOpt add) t.rows with
    | some rs => Except.ok (STable.mk rs newSchemaString)
    | none => Except.error "row transformation failed"

/-- Embedding of `computeFeaturesFromRow` (identical guard in both scripts):
when the review-text field holds a string, hand it to the external encoding
provider (abstracted as `encode`) and emit the generated feature vector;
any non-string value is skipped silently with no feature emitted. -/
def computeFeaturesFromRow (encode : String → List Int) (row : Row) : Option (List Int) :=
  match getField row "reviewText" with
  | Value.str s => some (encode s)
  | _ => none

/-- Modelled from the spec: the trained model artifact ("the fitted
regressor plus its feature-generation configuration", spec section 3); the
fitting internals live in the external library, which is not part of the
repository sources. -/
structure ModelArtifact where
  featureColumns : List String
  weights : List Int
  bias : Int

/-- Modelled from the spec: serialization of the model artifact to an opaque
blob (`pickle.dump` is external library code); encoded as length-prefixed
sections of the artifact's state. -/
def serializeModel (m : ModelArtifact) : List (String ⊕ Int) :=
  Sum.inr (Int.ofNat m.featureColumns.length) :: m.featureColumns.map Sum.inl ++
    (Sum.inr (Int.ofNat m.weights.length) :: m.weights.map Sum.inr ++ [Sum.inr m.bias])

/-- Read a counted run of string tokens from a blob. -/
def readStrs : Nat → List (String ⊕ Int) → Option (List String × List (String ⊕ Int))
  | 0, rest => some ([], rest)
  | k + 1, Sum.inl s :: rest =>
      match readStrs k rest with
      | some (l, r) => some (s :: l, r)
      | none => none
  | _ + 1, _ => none

/-- Read a counted run of integer tokens from a blob. -/
def readInts : Nat → List (String ⊕ Int) → Option (List Int × List (String ⊕ Int))
  | 0, rest => some ([], rest)
  | k + 1, Sum.inr z :: rest =>
      match readInts k rest with
      | some (l, r) => some (z :: l, r)
      | none => none
  | _ + 1, _ => none

/-- Modelled from the spec: deserialization of the model artifact
(`pickle.load` is external library code), the inverse parse of
`serializeModel`. -/
def deserializeModel (blob : List (String ⊕ Int)) : Option ModelArtifact :=
  match blob with
  | Sum.inr nf :: rest =>
      (match readStrs nf.toNat rest with
      | some (cols, Sum.inr nw :: rest2) =>
          (match readInts nw.toNat rest2 with
          | some (ws, [Sum.inr b]) => some (ModelArtifact.mk cols ws b)
          | _ => none)
      | _ => none)
  | _ => none

/-- Modelled from the spec: deterministic inference,
`predict(table) -> vector of numeric predictions` (spec section 6); one
affine score per input row. -/
def predict (m : ModelArtifact) (t : List (List Int)) : List Int :=
  t.map (fun r => m.bias + ((m.weights.zip r).map (fun q => q.1 * q.2)).foldl (fun a b => a + b) 0)

lemma dropUntilGT_some (ty post : List Char) (h : '>' ∉ ty) :
    dropUntilGT (ty ++ '>' :: post) = some post := by
  induction ty with
  | nil => simp [dropUntilGT]
  | cons a ty ih =>
    simp only [List.mem_cons, not_or] at h
    have ha : a ≠ '>' := fun hh => h.1 hh.symm
    simp [dropUntilGT, ha, ih h.2]

lemma isPrefixOf_append_self (pat rest : List Char) :
    pat.isPrefixOf (pat ++ rest) = true := by
  induction pat with
  | nil =>
    rw [List.nil_append]
    cases rest <;> rfl
  | cons a pat ih => simp [List.isPrefixOf, ih]

lemma isPrefixOf_nil_eq_false (pat : List Char) (h : pat ≠ []) :
    pat.isPrefixOf ([] : List Char) = false := by
  cases pat with
  | nil => exact absurd rfl h
  | cons a pat => rfl

lemma subLazyGTAux_no_match (pat repl : List Char) (fuel : Nat) (s : List Char)
    (h : ∀ i, pat.isPrefixOf (s.drop i) = false) (hf : s.length ≤ fuel) :
    subLazyGTAux pat repl fuel s = s := by
  induction fuel generalizing s with
  | zero => rfl
  | succ fuel ih =>
    cases s with
    | nil => rfl
    | cons ch rest =>
      have h0 : pat.isPrefixOf (ch :: rest) = false := by
        have := h 0
        simpa using this
      simp only [subLazyGTAux, h0, Bool.false_eq_true, if_false]
      have hrest : ∀ i, pat.isPrefixOf (rest.drop i) = false := fun i => by
        have := h (i + 1)
        simpa [List.drop_succ_cons] using this
      have hlen : rest.length ≤ fuel := by
        simp only [List.length_cons] at hf
        omega
      rw [ih rest hrest hlen]

lemma subLazyGTAux_spec (pat repl pre ty post : List Char) (fuel : Nat)
    (hpat : pat ≠ [])
    (hpre : ∀ i, i < pre.length →
      pat.isPrefixOf ((pre ++ (pat ++ (ty ++ '>' :: post))).drop i) = false)
    (hty : '>' ∉ ty)
    (hpost : ∀ i, pat.isPrefixOf (post.drop i) = false)
    (hf : (pre ++ (pat ++ (ty ++ '>' :: post))).length ≤ fuel) :
    subLazyGTAux pat repl fuel (pre ++ (pat ++ (ty ++ '>' :: post))) =
      pre ++ (repl ++ post) := by
  induction pre generalizing fuel with
  | nil =>
    simp only [List.nil_append] at hf ⊢
    cases pat with
    | nil => exact absurd rfl hpat
    | cons a pat' =>
      cases fuel with
      | zero =>
        exfalso
        simp [List.length_append] at hf
      | succ fuel =>
        have hc : (a :: pat').isPrefixOf ((a :: pat') ++ (ty ++ '>' :: post)) = true :=
          isPrefixOf_append_self _ _
        have hdrop : ((a :: pat') ++ (ty ++ '>' :: post)).drop (a :: pat').length =
            ty ++ '>' :: post := List.drop_left _ _
        rw [show (a :: pat') ++ (ty ++ '>' :: post) =
          a :: (pat' ++ (ty ++ '>' :: post)) from rfl] at hc hdrop ⊢
        simp only [subLazyGTAux, hc, if_true, hdrop, dropUntilGT_some ty post hty]
        congr 1
        apply subLazyGTAux_no_match (a :: pat') repl fuel post hpost
        simp only [List.length_cons, List.length_append] at hf
        omega
  | cons b pre' ih =>
    cases fuel with
    | zero =>
      exfalso
      simp only [List.length_cons, List.length_append] at hf
      omega
    | succ fuel =>
      have hc0 : pat.isPrefixOf (b :: (pre' ++ (pat ++ (ty ++ '>' :: post)))) = false := by
        have := hpre 0 (by simp)
        simpa using this
      rw [show (b :: pre') ++ (pat ++ (ty ++ '>' :: post)) =
        b :: (pre' ++ (pat ++ (ty ++ '>' :: post))) from rfl]
      simp only [subLazyGTAux, hc0, Bool.false_eq_true, if_false]
      have hpre' : ∀ i, i < pre'.length →
          pat.isPrefixOf ((pre' ++ (pat ++ (ty ++ '>' :: post))).drop i) = false := by
        intro i hi
        have := hpre (i + 1) (by simp only [List.length_cons]; omega)
        simpa [List.drop_succ_cons] using this
      have hf' : (pre' ++ (pat ++ (ty ++ '>' :: post))).length ≤ fuel := by
        simp only [List.length_cons, List.length_append] at hf ⊢
        omega
      rw [ih fuel hpre' hf']
      rfl

lemma subLazyGT_spec (pat repl pre ty post : List Char)
    (hpat : pat ≠ [])
    (hpre : ∀ i, i < pre.length →
      pat.isPrefixOf ((pre ++ (pat ++ (ty ++ '>' :: post))).drop i) = false)
    (hty : '>' ∉ ty)
    (hpost : ∀ i, pat.isPrefixOf (post.drop i) = false) :
    subLazyGT pat repl (pre ++ (pat ++ (ty ++ '>' :: post))) = pre ++ (repl ++ post) :=
  subLazyGTAux_spec pat repl pre ty post _ hpat hpre hty hpost (Nat.le_refl _)

lemma readStrs_append (l : List String) (rest : List (String ⊕ Int)) :
    readStrs l.length (l.map Sum.inl ++ rest) = some (l, rest) := by
  induction l with
  | nil => rfl
  | cons a l ih => simp [readStrs, ih]

lemma readInts_append (l : List Int) (rest : List (String ⊕ Int)) :
    readInts l.length (l.map Sum.inr ++ rest) = some (l, rest) := by
  induction l with
  | nil => rfl
  | cons a l ih => simp [readInts, ih]

lemma deserializeModel_serializeModel (m : ModelArtifact) :
    deserializeModel (serializeModel m) = some m := by
  obtain ⟨cols, ws, b⟩ := m
  simp [serializeModel, deserializeModel, readStrs_append, readInts_append]

lemma mncRow_getField_parent (children : List String) (p c : String)
    (mapping : Option (Value → Value)) (newOpt : Option String) (add : Bool)
    (row : Row) (fs : List (String × Value))
    (hp : getField row p = Value.struct fs)
    (hch : children = fs.map Prod.fst)
    (hnd : (fs.map Prod.fst).Nodup) :
    getField (mncRow children p c mapping newOpt add row) p =
      Value.struct (((resolvedChildName p c newOpt).1,
          (mapping.getD id) (getField fs c)) ::
        (if add then fs else fs.filter (fun q => q.1 != c))) := by
  have hnp : (resolvedChildName p c newOpt).1 ≠ p := resolvedChildName_ne_parent p c newOpt
  simp only [mncRow]
  rw [getField_dropCol_ne _ _ _ (Ne.symm hnp), getField_setCol_self,
    mncRow_structVal children p c mapping newOpt add row fs hp hch hnd]

lemma mncRow_of_fresh (children : List String) (p c : String)
    (mapping : Option (Value → Value)) (newOpt : Option String) (add : Bool)
    (row : Row) (fs : List (String × Value))
    (hp : getField row p = Value.struct fs)
    (hch : children = fs.map Prod.fst)
    (hnd : (fs.map Prod.fst).Nodup)
    (hfresh : (resolvedChildName p c newOpt).1 ∉ row.map Prod.fst) :
    mncRow children p c mapping newOpt add row =
      setCol row p (Value.struct (((resolvedChildName p c newOpt).1,
          (mapping.getD id) (getField fs c)) ::
        (if add then fs else fs.filter (fun q => q.1 != c)))) := by
  have hnp : (resolvedChildName p c newOpt).1 ≠ p := resolvedChildName_ne_parent p c newOpt
  have hmem : p ∈ row.map Prod.fst :=
    mem_keys_of_getField_ne_null row p (by rw [hp]; exact fun hh => Value.noConfusion hh)
  simp only [mncRow]
  rw [mncRow_structVal children p c mapping newOpt add row fs hp hch hnd]
  rw [setCol_of_not_mem row _ _ hfresh]
  rw [setCol_append_left _ _ _ _ hmem]
  rw [dropCol_append]
  have hdrop1 : dropCol [((resolvedChildName p c newOpt).1,
      (mapping.getD id) (getNested row p c))] (resolvedChildName p c newOpt).1 = [] := by
    simp [dropCol]
  rw [hdrop1, List.append_nil]
  apply dropCol_of_not_mem
  rw [map_fst_setCol row p _ hmem]
  exact hfresh

/-! Claim theorems. -/

/-- C1 counterexample: on a table that also has a top-level column named
like the resolved child name (here `a`), `manipulateNestedColumn` silently
consumes that column — the input row has a top-level `a` with value 9, the
output row has no column `a` at all — so "no other columns change" is false
as stated. -/
theorem manipulateNestedColumn_drops_colliding_column :
  manipulateNestedColumn
      [[("a", Value.int 9),
        ("p", Value.struct [("a", Value.int 1), ("b", Value.int 2), ("c", Value.int 3)])]]
      "p" "a" none none false =
    Except.ok [[("p", Value.struct [("a", Value.int 1), ("b", Value.int 2), ("c", Value.int 3)])]] ∧
  getField [("a", Value.int 9),
        ("p", Value.struct [("a", Value.int 1), ("b", Value.int 2), ("c", Value.int 3)])] "a" =
    Value.int 9 ∧
  getField [("p", Value.struct [("a", Value.int 1), ("b", Value.int 2), ("c", Value.int 3)])] "a" =
    Value.null :=
  ⟨rfl, rfl, rfl⟩

/-- C1 (amended): provided the resolved child name does not coincide with
any top-level column of the row, `manipulateNestedColumn` succeeds and each
output row is exactly the input row with the parent column's value replaced
in place by a struct holding the mapped child value under the resolved name
followed by the other original children (all of them when `addAsNewChild`);
every other column, and the column order, is untouched, and the transform
is functional (the input table is a value and is not mutated). -/
theorem manipulateNestedColumn_rewrites_parent_struct
    (df : DataFrame) (p c : String) (mapping : Option (Value → Value))
    (newOpt : Option String) (add : Bool) (i : Nat) (row : Row)
    (fs : List (String × Value))
    (hrow : df[i]? = some row)
    (hp : getField row p = Value.struct fs)
    (hch : structChildren df p = fs.map Prod.fst)
    (hnd : (fs.map Prod.fst).Nodup)
    (hfresh : (resolvedChildName p c newOpt).1 ∉ row.map Prod.fst)
    (hadd : (newOpt.isNone && add) = false) :
    ∃ out, manipulateNestedColumn df p c mapping newOpt add = Except.ok out ∧
      out.length = df.length ∧
      out[i]? = some (setCol row p (Value.struct
        (((resolvedChildName p c newOpt).1, (mapping.getD id) (getField fs c)) ::
          (if add then fs else fs.filter (fun q => q.1 != c))))) := by
  refine ⟨df.map (mncRow (structChildren df p) p c mapping newOpt add),
    manipulateNestedColumn_eq_map df p c mapping newOpt add hadd, by simp, ?_⟩
  rw [List.getElem?_map, hrow, Option.map_some']
  rw [mncRow_of_fresh (structChildren df p) p c mapping newOpt add row fs hp hch hnd hfresh]

/-- C1 witness: the amended theorem applied to a one-row table with parent
`p` holding children `a`, `b`, `c`, an unrelated column `q`, the identity
mapping, and new child name `a2`. -/
theorem manipulateNestedColumn_rewrites_parent_struct_witness :
    ∃ out, manipulateNestedColumn
        [[("p", Value.struct [("a", Value.int 1), ("b", Value.int 2), ("c", Value.int 3)]),
          ("q", Value.int 7)]] "p" "a" none (some "a2") false = Except.ok out ∧
      out.length = 1 ∧
      out[0]? = some
        [("p", Value.struct [("a2", Value.int 1), ("b", Value.int 2), ("c", Value.int 3)]),
         ("q", Value.int 7)] :=
  manipulateNestedColumn_rewrites_parent_struct
    [[("p", Value.struct [("a", Value.int 1), ("b", Value.int 2), ("c", Value.int 3)]),
      ("q", Value.int 7)]] "p" "a" none (some "a2") false 0
    [("p", Value.struct [("a", Value.int 1), ("b", Value.int 2), ("c", Value.int 3)]),
     ("q", Value.int 7)]
    [("a", Value.int 1), ("b", Value.int 2), ("c", Value.int 3)]
    rfl rfl rfl (by decide) (by decide) rfl

/-- C10: with `addAsNewChild` false the rewritten parent struct lists the
mapped child first, under the resolved name, followed by the remaining
original children in their original relative order; the mapped value is
`(mapping.getD id) (getField fs c)`, so an absent mapping means the identity
is applied and the child's value is preserved (a pure rename). -/
theorem manipulateNestedColumn_child_listed_first
    (df : DataFrame) (p c : String) (mapping : Option (Value → Value))
    (newOpt : Option String) (i : Nat) (row : Row) (fs : List (String × Value))
    (hrow : df[i]? = some row)
    (hp : getField row p = Value.struct fs)
    (hch : structChildren df p = fs.map Prod.fst)
    (hnd : (fs.map Prod.fst).Nodup) :
    ∃ out row2, manipulateNestedColumn df p c mapping newOpt false = Except.ok out ∧
      out[i]? = some row2 ∧
      getField row2 p = Value.struct
        (((resolvedChildName p c newOpt).1, (mapping.getD id) (getField fs c)) ::
          fs.filter (fun q => q.1 != c)) := by
  refine ⟨df.map (mncRow (structChildren df p) p c mapping newOpt false),
    mncRow (structChildren df p) p c mapping newOpt false row,
    manipulateNestedColumn_eq_map df p c mapping newOpt false (by simp), ?_, ?_⟩
  · rw [List.getElem?_map, hrow, Option.map_some']
  · have h := mncRow_getField_parent (structChildren df p) p c mapping newOpt false row fs
      hp hch hnd
    simpa using h

/-- C10 witness: a pure rename (no mapping) of child `x` to `x2` inside
parent `style`; the rewritten child is listed first with its value
preserved, followed by the remaining child `y`. -/
theorem manipulateNestedColumn_child_listed_first_witness :
    ∃ out row2, manipulateNestedColumn
        [[("style", Value.struct [("x", Value.str "v"), ("y", Value.int 2)])]]
        "style" "x" none (some "x2") false = Except.ok out ∧
      out[0]? = some row2 ∧
      getField row2 "style" =
        Value.struct [("x2", Value.str "v"), ("y", Value.int 2)] :=
  manipulateNestedColumn_child_listed_first
    [[("style", Value.struct [("x", Value.str "v"), ("y", Value.int 2)])]]
    "style" "x" none (some "x2") 0
    [("style", Value.struct [("x", Value.str "v"), ("y", Value.int 2)])]
    [("x", Value.str "v"), ("y", Value.int 2)]
    rfl rfl rfl (by decide)

/-- C3 counterexample: with `addAsNewChild` true and a provided new child
name equal to the old child name, `manipulateNestedColumn` does not fail —
it returns a table whose parent struct now carries the field name `a`
twice, instead of raising the configuration error the claim requires. -/
theorem manipulateNestedColumn_accepts_equal_new_child_name :
  manipulateNestedColumn [[("p", Value.struct [("a", Value.int 1), ("b", Value.int 2)])]]
      "p" "a" none (some "a") true =
    Except.ok [[("p", Value.struct
      [("a", Value.int 1), ("a", Value.int 1), ("b", Value.int 2)])]] :=
  rfl

/-- C3 (amended): both rewriter variants fail with the configuration error
exactly when `addAsNewChild` is true and no new child name is provided; a
provided name that merely equals the old child name is not rejected. -/
theorem addAsNewChild_without_name_fails :
    ∀ (df : DataFrame) (t : STable) (p c : String) (mapping : Option (Value → Value))
      (mapping2 : Value → Value) (newType : Option String),
    manipulateNestedColumn df p c mapping none true =
        Except.error ("Cannot add the column " ++ c ++ " twice to " ++ p) ∧
    manipulateNestedThroughRdd t p c mapping2 none true newType =
        Except.error ("Cannot add the column " ++ c ++ " twice to " ++ p) := by
  intro df t p c mapping mapping2 newType
  constructor
  · simp [manipulateNestedColumn]
  · simp [manipulateNestedThroughRdd]

/-- C4: when the resolved new child name case-insensitively equals the
parent column name, the name is suffixed with an underscore, the warning
flag is set, and the rewrite still succeeds instead of failing. -/
theorem resolvedChildName_collision_appends_underscore
    (df : DataFrame) (p c : String) (mapping : Option (Value → Value))
    (newOpt : Option String)
    (h : lowerName (newOpt.getD c) = lowerName p) :
    resolvedChildName p c newOpt = ((newOpt.getD c) ++ "_", true) ∧
    ∃ out, manipulateNestedColumn df p c mapping newOpt false = Except.ok out := by
  constructor
  · simp [resolvedChildName, h]
  · exact ⟨_, manipulateNestedColumn_eq_map df p c mapping newOpt false (by simp)⟩

/-- C4 witness: renaming child `x` of parent `style` to `Style` collides
case-insensitively with the parent; the name becomes `Style_`, the warning
is emitted, and the call succeeds. -/
theorem resolvedChildName_collision_appends_underscore_witness :
    resolvedChildName "style" "x" (some "Style") = ("Style_", true) ∧
    ∃ out, manipulateNestedColumn [[("style", Value.struct [("x", Value.int 1)])]]
      "style" "x" none (some "Style") false = Except.ok out :=
  resolvedChildName_collision_appends_underscore
    [[("style", Value.struct [("x", Value.int 1)])]] "style" "x" none (some "Style")
    (by decide)

/-- C5: `manipulateNestedColumns` fails with the length-mismatch assertion
message — before applying any rewrite — whenever the child-name, new-name
and mapping lists disagree in length, and a single mapping argument is
exactly equivalent to a list replicating that mapping once per child. -/
theorem manipulateNestedColumns_batch_props :
    (∀ (df : DataFrame) (p : String) (cs : List String)
        (fs : List (Option (Value → Value))) (nn : List String) (add : Bool),
      ¬ (nn.length = cs.length ∧ cs.length = fs.length) →
      manipulateNestedColumns df p cs (MappingsArg.many fs) (some nn) add =
        Except.error "Lengths of newChildColNames, childColNames and mappings have to match") ∧
    (∀ (df : DataFrame) (p : String) (cs : List String) (f : Option (Value → Value))
        (nn : Option (List String)) (add : Bool),
      manipulateNestedColumns df p cs (MappingsArg.one f) nn add =
        manipulateNestedColumns df p cs (MappingsArg.many (List.replicate cs.length f)) nn add) := by
  constructor
  · intro df p cs fs nn add h
    have hc : (nn.length == cs.length && cs.length == fs.length) = false := by
      by_cases h1 : nn.length = cs.length
      · by_cases h2 : cs.length = fs.length
        · exact absurd ⟨h1, h2⟩ h
        · simp [h1, h2]
      · simp [h1]
    simp only [manipulateNestedColumns, Option.getD_some, hc, Bool.false_eq_true, if_false]
  · intro df p cs f nn add
    rfl

/-- C5 witness: two children with an empty mapping list is a length
mismatch and produces the assertion error without touching the table. -/
theorem manipulateNestedColumns_batch_props_witness :
    manipulateNestedColumns [[("p", Value.struct [("a", Value.int 1)])]] "p" ["a", "b"]
      (MappingsArg.many []) (some ["a", "b"]) false =
      Except.error "Lengths of newChildColNames, childColNames and mappings have to match" :=
  manipulateNestedColumns_batch_props.1 [[("p", Value.struct [("a", Value.int 1)])]]
    "p" ["a", "b"] [] ["a", "b"] false (by decide)

/-- C6: a row whose parent struct value is null is passed through the RDD
row transform unchanged — no mapping is applied and no error is raised. -/
theorem adjustRow_null_parent_unchanged (p c : String) (mapping : Value → Value)
    (newOpt : Option String) (add : Bool) (row : Row)
    (h : row.find? (fun q => q.1 == p) = some (p, Value.null)) :
    adjustRow p c mapping newOpt add row = some row := by
  simp [adjustRow, h]

/-- C6 witness: a row with a null `style` parent passes through
`adjustRow` unchanged. -/
theorem adjustRow_null_parent_unchanged_witness :
    adjustRow "style" "Gift Amount:" castToInt (some "Gift_Amount") false
      [("style", Value.null), ("overall", Value.int 5)] =
      some [("style", Value.null), ("overall", Value.int 5)] :=
  adjustRow_null_parent_unchanged "style" "Gift Amount:" castToInt (some "Gift_Amount")
    false [("style", Value.null), ("overall", Value.int 5)] rfl

/-- C7: cleaning the example record — `style` holding `"Gift Amount:"` with
value `" 25 "` — with the `castToInt` mapping and new child name
`Gift_Amount` yields the integer 25 under `Gift_Amount` inside `style`,
with the original nested field removed and the other columns unchanged. -/
theorem cleaning_example_gift_amount :
  manipulateNestedColumn
      [[("style", Value.struct [("Gift Amount:", Value.str " 25 ")]),
        ("reviewText", Value.str "Great"), ("overall", Value.int 5)]]
      "style" "Gift Amount:" (some castToInt) (some "Gift_Amount") false =
    Except.ok [[("style", Value.struct [("Gift_Amount", Value.int 25)]),
        ("reviewText", Value.str "Great"), ("overall", Value.int 5)]] :=
  rfl

/-- C8 (spec-modelled): serializing a trained model artifact and
deserializing it again yields a model whose predictions on any input table
are identical to those of the original model. -/
theorem model_roundtrip_preserves_predictions (m : ModelArtifact) (t : List (List Int)) :
    (deserializeModel (serializeModel m)).map (fun m2 => predict m2 t) =
      some (predict m t) := by
  rw [deserializeModel_serializeModel]
  rfl

/-- C9: a record whose review-text field is not a string is skipped by the
feature computation — no feature is emitted and no error is raised,
whatever the encoding provider does. -/
theorem computeFeaturesFromRow_skips_nontext (encode : String → List Int) (row : Row)
    (h : ∀ s, getField row "reviewText" ≠ Value.str s) :
    computeFeaturesFromRow encode row = none := by
  unfold computeFeaturesFromRow
  cases hv : getField row "reviewText" with
  | str s => exact absurd hv (h s)
  | null => rfl
  | int n => rfl
  | struct fs => rfl

/-- C9 witness: a numeric review-text field yields no feature. -/
theorem computeFeaturesFromRow_skips_nontext_witness :
    computeFeaturesFromRow (fun _ => [])
      [("reviewText", Value.int 3), ("overall", Value.int 5)] = none :=
  computeFeaturesFromRow_skips_nontext (fun _ => [])
    [("reviewText", Value.int 3), ("overall", Value.int 5)]
    (fun _ hh => Value.noConfusion hh)

/-- C2: on a schema string that contains the `parent:struct<child:` prefix
exactly once, followed by the child's type declaration up to the first `>`
(the lazy `.*?>` of the pattern), `manipulateNestedThroughRdd` with a new
child type returns the table rebuilt from the row-mapped RDD, with the
output schema obtained by textually substituting the new child name and
type declaration for the old ones at that anchored position, everything
before and after the patched declaration preserved verbatim. -/
theorem manipulateNestedThroughRdd_patches_schema
    (t : STable) (p c n tyNew : String) (mapping : Value → Value) (add : Bool)
    (pre ty post : List Char) (rs : List Row)
    (hs : t.schemaString.data =
      pre ++ ((p ++ ":struct<" ++ c ++ ":").data ++ (ty ++ '>' :: post)))
    (hpre : ∀ i, i < pre.length →
      (p ++ ":struct<" ++ c ++ ":").data.isPrefixOf (t.schemaString.data.drop i) = false)
    (hty : '>' ∉ ty)
    (hpost : ∀ i, i ≤ post.length →
      (p ++ ":struct<" ++ c ++ ":").data.isPrefixOf (post.drop i) = false)
    (hrows : mapRows (adjustRow p c mapping (some n) add) t.rows = some rs) :
    manipulateNestedThroughRdd t p c mapping (some n) add (some tyNew) =
      Except.ok (STable.mk rs
        (String.mk (pre ++ ((p ++ ":struct<" ++ n ++ ":" ++ tyNew ++ ">").data ++ post)))) := by
  have hpat : (p ++ ":struct<" ++ c ++ ":").data ≠ [] := by
    have hlen : (p ++ ":struct<" ++ c ++ ":").data.length =
        (p ++ ":struct<" ++ c).length + 1 := by
      show (p ++ ":struct<" ++ c ++ ":").length = (p ++ ":struct<" ++ c).length + 1
      rw [String.length_append]
      rfl
    intro hnil
    rw [hnil] at hlen
    simp at hlen
  have hpre2 : ∀ i, i < pre.length →
      (p ++ ":struct<" ++ c ++ ":").data.isPrefixOf
        ((pre ++ ((p ++ ":struct<" ++ c ++ ":").data ++ (ty ++ '>' :: post))).drop i) =
        false := by
    intro i hi
    have h2 := hpre i hi
    rwa [hs] at h2
  have hpost2 : ∀ i, (p ++ ":struct<" ++ c ++ ":").data.isPrefixOf (post.drop i) = false := by
    intro i
    by_cases hi : i ≤ post.length
    · exact hpost i hi
    · have hdrop : post.drop i = [] := List.drop_eq_nil_of_le (by omega)
      rw [hdrop]
      exact isPrefixOf_nil_eq_false _ hpat
  have hschema : patchSchemaTyped (p ++ ":struct<" ++ c) (p ++ ":struct<" ++ n) tyNew
      t.schemaString =
      String.mk (pre ++ ((p ++ ":struct<" ++ n ++ ":" ++ tyNew ++ ">").data ++ post)) := by
    simp only [patchSchemaTyped, subLazyGT]
    rw [hs]
    congr 1
    exact subLazyGTAux_spec ((p ++ ":struct<" ++ c) ++ ":").data
      ((p ++ ":struct<" ++ n) ++ ":" ++ tyNew ++ ">").data pre ty post _
      hpat hpre2 hty hpost2 (Nat.le_refl _)
  simp only [manipulateNestedThroughRdd, Option.isNone_some, Bool.false_and,
    Bool.false_eq_true, if_false, hrows, hschema]

/-- C2 witness: patching the example table's schema
`struct<style:struct<Gift Amount::string>,reviewText:string,overall:bigint>`
for the rename of `Gift Amount:` to `Gift_Amount` with new type `int`,
together with the row-level transform applied to the one example row. -/
theorem manipulateNestedThroughRdd_patches_schema_witness :
    manipulateNestedThroughRdd
        (STable.mk
          [[("style", Value.struct [("Gift Amount:", Value.str " 25 ")]),
            ("reviewText", Value.str "Great"), ("overall", Value.int 5)]]
          "struct<style:struct<Gift Amount::string>,reviewText:string,overall:bigint>")
        "style" "Gift Amount:" castToInt (some "Gift_Amount") false (some "int") =
      Except.ok (STable.mk
        [[("reviewText", Value.str "Great"), ("overall", Value.int 5),
          ("style", Value.struct [("Gift_Amount", Value.int 25)])]]
        "struct<style:struct<Gift_Amount:int>,reviewText:string,overall:bigint>") :=
  manipulateNestedThroughRdd_patches_schema
    (STable.mk
      [[("style", Value.struct [("Gift Amount:", Value.str " 25 ")]),
        ("reviewText", Value.str "Great"), ("overall", Value.int 5)]]
      "struct<style:struct<Gift Amount::string>,reviewText:string,overall:bigint>")
    "style" "Gift Amount:" "Gift_Amount" "int" castToInt false
    "struct<".data "string".data ",reviewText:string,overall:bigint>".data
    [[("reviewText", Value.str "Great"), ("overall", Value.int 5),
      ("style", Value.struct [("Gift_Amount", Value.int 25)])]]
    (by decide) (by decide) (by decide) (by decide) rfl
